import Mathlib

/-!
Verification of the in-memory user store, service and router of
`golang-beginner-rest-api` against its specification.

The Go source is shallowly embedded as follows.

* Go strings are modelled as Lean `String`s; byte-level operations of the
  source (slicing off the `"/users/"` prefix, `strings.Split`,
  `strings.TrimSpace`, `strings.Trim`) are modelled character-wise, which
  coincides with the byte-level behaviour on the ASCII delimiters involved.
* The store's `map[int]User` is modelled as an association list with the
  usual map semantics (lookup finds the unique binding; set replaces;
  delete removes).  Go's map iteration order is unspecified, so any
  concrete order chosen by the model is a faithful refinement.
* Go `int` (64-bit platform) is modelled as `Int` together with the
  explicit two's-complement wraparound `wrap64` (reduction into
  `[-2^63, 2^63)`), applied exactly where the source can overflow: the
  store's `s.nextID++`.  `strconv.Atoi` is modelled with its signed-64-bit
  range check.
* `time.Now().UTC()` is modelled by threading an explicit abstract clock
  value (`Nat`) into every operation that stamps a creation time.
* The store's `sync.RWMutex` serialises all operations, so a run of the
  store is a sequence of atomic operations; concurrency is modelled as
  arbitrary interleavings, i.e. arbitrary operation lists.
-/

/-- Two's-complement wraparound of a 64-bit signed integer: the unique
value in `[-2^63, 2^63)` congruent mod `2^64`. Go's `nextID++` on `int`
wraps this way on overflow. -/
def wrap64 (x : Int) : Int :=
  (x + 2 ^ 63) % 2 ^ 64 - 2 ^ 63

theorem wrap64_bounds (x : Int) : -(2 ^ 63) ≤ wrap64 x ∧ wrap64 x < 2 ^ 63 := by
  unfold wrap64
  omega

theorem wrap64_eq_self (x : Int) (h1 : -(2 ^ 63) ≤ x) (h2 : x < 2 ^ 63) :
    wrap64 x = x := by
  unfold wrap64
  omega

theorem wrap64_add_left (x y : Int) : wrap64 (wrap64 x + y) = wrap64 (x + y) := by
  unfold wrap64
  omega

/-- `User` from users_store.go: `ID int`, `Name string`,
`CreatedAt time.Time` (the timestamp is abstracted to `Nat`). -/
structure User where
  id : Int
  name : String
  createdAt : Nat
deriving DecidableEq, Repr

/-- `UserStore` from users_store.go: `nextID int` and `items map[int]User`.
The map is modelled as an association list with unique keys. -/
structure UserStore where
  nextID : Int
  items : List (Int × User)
deriving DecidableEq, Repr

/-- Map lookup `u, ok := s.items[id]`: first (and, under the store invariant,
only) binding of the key. -/
def mapLookup : List (Int × User) → Int → Option User
  | [], _ => none
  | p :: rest, k => if p.1 = k then some p.2 else mapLookup rest k

/-- Map removal `delete(s.items, k)`: every binding of `k` is removed. -/
def mapErase : List (Int × User) → Int → List (Int × User)
  | [], _ => []
  | p :: rest, k => if p.1 = k then mapErase rest k else p :: mapErase rest k

/-- Map update `s.items[k] = v`: any binding of `k` is replaced. -/
def mapSet (m : List (Int × User)) (k : Int) (v : User) : List (Int × User) :=
  (k, v) :: mapErase m k

/-- `NewUserStore` from users_store.go: `nextID = 1`, empty item map. -/
def newUserStore : UserStore :=
  ⟨1, []⟩

/-- `(*UserStore).Create` from users_store.go: builds the user with id
`s.nextID` and the current time, inserts it, increments `nextID` (a Go
`int`, so the increment wraps two's-complement), and returns the new
record. -/
def storeCreate (s : UserStore) (name : String) (now : Nat) : User × UserStore :=
  let u : User := ⟨s.nextID, name, now⟩
  (u, ⟨wrap64 (s.nextID + 1), mapSet s.items u.id u⟩)

/-- `(*UserStore).Get` from users_store.go: map lookup, no mutation.
`none` models the Go `ok = false` result. -/
def storeGet (s : UserStore) (id : Int) : Option User :=
  mapLookup s.items id

/-- `(*UserStore).Delete` from users_store.go: if the id is absent return
`false` and leave the store as it is; otherwise remove the binding and
return `true`. -/
def storeDelete (s : UserStore) (id : Int) : Bool × UserStore :=
  match mapLookup s.items id with
  | none => (false, s)
  | some _ => (true, ⟨s.nextID, mapErase s.items id⟩)

/-- `(*UserStore).List` from users_store.go: all current records, in the
model's (unspecified, per the Go map contract) iteration order. -/
def storeList (s : UserStore) : List User :=
  s.items.map Prod.snd

/-- One atomic store operation (the mutex serialises them). -/
inductive StoreOp where
  | create (name : String) (now : Nat)
  | get (id : Int)
  | delete (id : Int)
  | list
deriving DecidableEq, Repr

/-- State transition of a single store operation. -/
def applyOp (s : UserStore) : StoreOp → UserStore
  | .create name now => (storeCreate s name now).2
  | .get _ => s
  | .delete id => (storeDelete s id).2
  | .list => s

/-- Run a sequence of store operations. -/
def runStore (s : UserStore) : List StoreOp → UserStore
  | [] => s
  | op :: rest => runStore (applyOp s op) rest

/-- The ids returned by the successive `Create` calls of an operation
sequence, in call order. -/
def createdIds (s : UserStore) : List StoreOp → List Int
  | [] => []
  | .create name now :: rest =>
      (storeCreate s name now).1.id :: createdIds (applyOp s (.create name now)) rest
  | op :: rest => createdIds (applyOp s op) rest

/-- Number of `create` operations in a sequence. -/
def countCreates : List StoreOp → Nat
  | [] => 0
  | .create _ _ :: rest => countCreates rest + 1
  | _ :: rest => countCreates rest

/-- The list `[n, n+1, …, n+k-1]` of integers. -/
def intRange (n : Int) : Nat → List Int
  | 0 => []
  | k + 1 => n :: intRange (n + 1) k

/-- Store invariant of the overflow-free states: `nextID` is positive,
stored keys are pairwise distinct, every record's `id` field equals its
key, and every key is a positive integer below `nextID`. -/
def storeInv (s : UserStore) : Prop :=
  1 ≤ s.nextID ∧ (s.items.map Prod.fst).Nodup ∧
    ∀ p ∈ s.items, p.2.id = p.1 ∧ 1 ≤ p.1 ∧ p.1 < s.nextID

theorem storeInv_new : storeInv newUserStore := by
  refine ⟨le_refl 1, List.nodup_nil, ?_⟩
  intro p hp
  exact absurd hp (List.not_mem_nil p)

theorem mem_of_mem_mapErase (m : List (Int × User)) (k : Int) (p : Int × User)
    (h : p ∈ mapErase m k) : p ∈ m := by
  induction m with
  | nil => exact absurd h (List.not_mem_nil p)
  | cons q rest ih =>
    by_cases hqk : q.1 = k
    · simp only [mapErase, if_pos hqk] at h
      exact List.mem_cons_of_mem q (ih h)
    · simp only [mapErase, if_neg hqk, List.mem_cons] at h
      rcases h with h | h
      · exact h ▸ List.mem_cons_self q rest
      · exact List.mem_cons_of_mem q (ih h)

theorem mapErase_keys_sublist (m : List (Int × User)) (k : Int) :
    ((mapErase m k).map Prod.fst).Sublist (m.map Prod.fst) := by
  induction m with
  | nil => exact List.Sublist.refl []
  | cons q rest ih =>
    by_cases hqk : q.1 = k
    · simp only [mapErase, if_pos hqk, List.map_cons]
      exact ih.cons q.1
    · simp only [mapErase, if_neg hqk, List.map_cons]
      exact ih.cons₂ q.1

theorem mapErase_eq_self (m : List (Int × User)) (k : Int)
    (h : ∀ p ∈ m, p.1 ≠ k) : mapErase m k = m := by
  induction m with
  | nil => rfl
  | cons q rest ih =>
    have hq : q.1 ≠ k := h q (List.mem_cons_self q rest)
    simp only [mapErase, if_neg hq]
    rw [ih (fun p hp => h p (List.mem_cons_of_mem q hp))]

theorem mapLookup_erase_self (m : List (Int × User)) (k : Int) :
    mapLookup (mapErase m k) k = none := by
  induction m with
  | nil => rfl
  | cons q rest ih =>
    by_cases hqk : q.1 = k
    · simpa [mapErase, hqk] using ih
    · simpa [mapErase, mapLookup, hqk] using ih

theorem mapLookup_erase_ne (m : List (Int × User)) (k k' : Int) (h : k' ≠ k) :
    mapLookup (mapErase m k) k' = mapLookup m k' := by
  induction m with
  | nil => rfl
  | cons q rest ih =>
    by_cases hqk : q.1 = k
    · have hq : ¬q.1 = k' := by
        rw [hqk]; exact fun hc => h hc.symm
      simp only [mapErase, if_pos hqk, mapLookup, if_neg hq]
      exact ih
    · by_cases hqk' : q.1 = k'
      · simp only [mapErase, if_neg hqk, mapLookup, if_pos hqk']
      · simp only [mapErase, if_neg hqk, mapLookup, if_neg hqk']
        exact ih

theorem mapLookup_set_self (m : List (Int × User)) (k : Int) (v : User) :
    mapLookup (mapSet m k v) k = some v := by
  simp [mapSet, mapLookup]

theorem mapLookup_set_ne (m : List (Int × User)) (k k' : Int) (v : User)
    (h : k' ≠ k) : mapLookup (mapSet m k v) k' = mapLookup m k' := by
  have hk : ¬k = k' := fun hc => h hc.symm
  simp only [mapSet, mapLookup, if_neg hk]
  exact mapLookup_erase_ne m k k' h

theorem storeInv_delete (s : UserStore) (id : Int)
    (h : storeInv s) : storeInv (storeDelete s id).2 := by
  obtain ⟨h1, h2, h3⟩ := h
  unfold storeDelete
  cases hl : mapLookup s.items id with
  | none => exact ⟨h1, h2, h3⟩
  | some u =>
    refine ⟨h1, ?_, ?_⟩
    · exact h2.sublist (mapErase_keys_sublist s.items id)
    · intro p hp
      exact h3 p (mem_of_mem_mapErase s.items id p hp)

theorem mem_intRange : ∀ (k : Nat) (n x : Int),
    x ∈ intRange n k → n ≤ x ∧ x < n + k := by
  intro k
  induction k with
  | zero => intro n x h; exact absurd h (List.not_mem_nil x)
  | succ k ih =>
    intro n x h
    rcases List.mem_cons.1 h with h | h
    · subst h
      refine ⟨le_refl _, ?_⟩
      push_cast
      omega
    · have := ih (n + 1) x h
      push_cast at this ⊢
      omega

theorem intRange_pairwise_lt (n : Int) (k : Nat) :
    (intRange n k).Pairwise (· < ·) := by
  induction k generalizing n with
  | zero => exact List.Pairwise.nil
  | succ k ih =>
    refine List.pairwise_cons.2 ⟨?_, ih (n + 1)⟩
    intro x hx
    have := mem_intRange k (n + 1) x hx
    omega

theorem runStore_append (l1 l2 : List StoreOp) :
    ∀ s : UserStore, runStore s (l1 ++ l2) = runStore (runStore s l1) l2 := by
  induction l1 with
  | nil => intro s; rfl
  | cons op rest ih => intro s; exact ih (applyOp s op)

theorem createdIds_append (l1 l2 : List StoreOp) :
    ∀ s : UserStore,
      createdIds s (l1 ++ l2) =
        createdIds s l1 ++ createdIds (runStore s l1) l2 := by
  induction l1 with
  | nil => intro s; rfl
  | cons op rest ih =>
    intro s
    cases op with
    | create name now =>
      show (storeCreate s name now).1.id :: createdIds _ (rest ++ l2) = _
      rw [ih]
      rfl
    | get id => exact ih s
    | delete id => exact ih (applyOp s (.delete id))
    | list => exact ih s

theorem countCreates_replicate (k : Nat) (name : String) (now : Nat) :
    countCreates (List.replicate k (StoreOp.create name now)) = k := by
  induction k with
  | zero => rfl
  | succ k ih =>
    rw [List.replicate_succ]
    show countCreates (List.replicate k (StoreOp.create name now)) + 1 = k + 1
    rw [ih]

theorem createdIds_nil_of_no_creates :
    ∀ (ops : List StoreOp) (s : UserStore),
      countCreates ops = 0 → createdIds s ops = [] := by
  intro ops
  induction ops with
  | nil => intro s _; rfl
  | cons op rest ih =>
    intro s h
    cases op with
    | create name now => simp [countCreates] at h
    | get id => exact ih s (by simpa [countCreates] using h)
    | delete id => exact ih _ (by simpa [countCreates] using h)
    | list => exact ih s (by simpa [countCreates] using h)

theorem keys_nodup_no_creates :
    ∀ (ops : List StoreOp) (s : UserStore),
      countCreates ops = 0 → (s.items.map Prod.fst).Nodup →
      ((runStore s ops).items.map Prod.fst).Nodup := by
  intro ops
  induction ops with
  | nil => intro s _ h; exact h
  | cons op rest ih =>
    intro s hc h
    cases op with
    | create name now => simp [countCreates] at hc
    | get id => exact ih s (by simpa [countCreates] using hc) h
    | delete id =>
      apply ih _ (by simpa [countCreates] using hc)
      show ((storeDelete s id).2.items.map Prod.fst).Nodup
      unfold storeDelete
      cases mapLookup s.items id with
      | none => exact h
      | some u => exact h.sublist (mapErase_keys_sublist s.items id)
    | list => exact ih s (by simpa [countCreates] using hc) h

theorem createdIds_intRange :
    ∀ (ops : List StoreOp) (s : UserStore),
      storeInv s → s.nextID + countCreates ops ≤ 2 ^ 63 →
      createdIds s ops = intRange s.nextID (countCreates ops) ∧
      ((runStore s ops).items.map Prod.fst).Nodup := by
  intro ops
  induction ops with
  | nil => intro s hInv _; exact ⟨rfl, hInv.2.1⟩
  | cons op rest ih =>
    intro s hInv hbudget
    obtain ⟨h1, h2, h3⟩ := hInv
    cases op with
    | create name now =>
      have hkey : ∀ p ∈ s.items, p.1 ≠ s.nextID := fun p hp => by
        have := (h3 p hp).2.2; omega
      have hnotmem : s.nextID ∉ s.items.map Prod.fst := by
        intro hmem
        obtain ⟨p, hp, hpe⟩ := List.mem_map.1 hmem
        exact hkey p hp hpe
      have hcount : countCreates (StoreOp.create name now :: rest)
          = countCreates rest + 1 := rfl
      rw [hcount] at hbudget
      push_cast at hbudget
      have hitems : (applyOp s (.create name now)).items
          = (s.nextID, ⟨s.nextID, name, now⟩) :: s.items := by
        show mapSet s.items s.nextID ⟨s.nextID, name, now⟩ = _
        unfold mapSet
        rw [mapErase_eq_self s.items s.nextID hkey]
      have hnextID : (applyOp s (.create name now)).nextID
          = wrap64 (s.nextID + 1) := rfl
      have hkeysnd : ((applyOp s (.create name now)).items.map Prod.fst).Nodup := by
        rw [hitems]
        exact List.nodup_cons.2 ⟨hnotmem, h2⟩
      by_cases hw : s.nextID + 1 < 2 ^ 63
      · have hwrap : wrap64 (s.nextID + 1) = s.nextID + 1 :=
          wrap64_eq_self _ (by omega) hw
        have hInv' : storeInv (applyOp s (.create name now)) := by
          refine ⟨?_, hkeysnd, ?_⟩
          · rw [hnextID, hwrap]; omega
          · intro p hp
            rw [hitems] at hp
            rw [hnextID, hwrap]
            rcases List.mem_cons.1 hp with hp | hp
            · subst hp; exact ⟨rfl, h1, by omega⟩
            · have := h3 p hp
              exact ⟨this.1, this.2.1, by omega⟩
        have hbudget' : (applyOp s (.create name now)).nextID
            + countCreates rest ≤ 2 ^ 63 := by
          rw [hnextID, hwrap]; push_cast; omega
        obtain ⟨hids, hnd⟩ := ih _ hInv' hbudget'
        constructor
        · show (storeCreate s name now).1.id
              :: createdIds (applyOp s (.create name now)) rest
            = intRange s.nextID (countCreates rest + 1)
          rw [hids, hnextID, hwrap]
          rfl
        · exact hnd
      · have hk0 : countCreates rest = 0 := by omega
        constructor
        · show (storeCreate s name now).1.id
              :: createdIds (applyOp s (.create name now)) rest
            = intRange s.nextID (countCreates rest + 1)
          rw [createdIds_nil_of_no_creates rest _ hk0, hk0]
          rfl
        · exact keys_nodup_no_creates rest _ hk0 hkeysnd
    | get id => exact ih s ⟨h1, h2, h3⟩ hbudget
    | delete id =>
      have hnext : (storeDelete s id).2.nextID = s.nextID := by
        unfold storeDelete
        cases mapLookup s.items id <;> rfl
      have hInv' := storeInv_delete s id ⟨h1, h2, h3⟩
      have hb' : (storeDelete s id).2.nextID + countCreates rest ≤ 2 ^ 63 := by
        rw [hnext]; exact hbudget
      obtain ⟨hids, hnd⟩ := ih _ hInv' hb'
      rw [hnext] at hids
      exact ⟨hids, hnd⟩
    | list => exact ih s ⟨h1, h2, h3⟩ hbudget

/-- C1 (amended): starting from `NewUserStore`, as long as fewer than
`2^63` `Create` calls occur (so the 64-bit id counter never overflows),
the ids returned by the successive `Create` calls of any operation
sequence are exactly `1, 2, …, k` — strictly increasing, starting at 1,
pairwise distinct, so an id is never handed out again even after the user
with that id has been deleted — and the stored users always have pairwise
distinct ids. -/
theorem create_ids_strictly_increasing (ops : List StoreOp)
    (h : countCreates ops < 2 ^ 63) :
    createdIds newUserStore ops = intRange 1 (countCreates ops) ∧
    (createdIds newUserStore ops).Pairwise (· < ·) ∧
    (createdIds newUserStore ops).Nodup ∧
    ((runStore newUserStore ops).items.map Prod.fst).Nodup := by
  have hb : newUserStore.nextID + countCreates ops ≤ 2 ^ 63 := by
    show (1 : Int) + countCreates ops ≤ 2 ^ 63
    have hc : (countCreates ops : Int) < 2 ^ 63 := by exact_mod_cast h
    omega
  obtain ⟨hids, hnd⟩ := createdIds_intRange ops newUserStore storeInv_new hb
  refine ⟨hids, ?_, ?_, hnd⟩
  · rw [hids]
    exact intRange_pairwise_lt 1 (countCreates ops)
  · rw [hids]
    exact (intRange_pairwise_lt 1 (countCreates ops)).imp fun hlt => ne_of_lt hlt

theorem create_ids_strictly_increasing_witness :
    createdIds newUserStore
        [StoreOp.create "a" 0, StoreOp.delete 1, StoreOp.create "b" 2] =
      intRange 1 2 :=
  (create_ids_strictly_increasing
    [StoreOp.create "a" 0, StoreOp.delete 1, StoreOp.create "b" 2]
    (by decide)).1

theorem createdIds_single_create (s : UserStore) (name : String) (now : Nat) :
    createdIds s [StoreOp.create name now] = [s.nextID] :=
  rfl

theorem replicate_creates_nextID (name : String) (now : Nat) :
    ∀ (k : Nat) (s : UserStore), -(2 ^ 63) ≤ s.nextID → s.nextID < 2 ^ 63 →
      (runStore s (List.replicate k (StoreOp.create name now))).nextID =
        wrap64 (s.nextID + k) := by
  intro k
  induction k with
  | zero =>
    intro s hlo hhi
    show s.nextID = wrap64 (s.nextID + (0 : Nat))
    rw [show ((0 : Nat) : Int) = 0 from rfl, add_zero]
    exact (wrap64_eq_self s.nextID hlo hhi).symm
  | succ k ih =>
    intro s hlo hhi
    rw [List.replicate_succ]
    show (runStore (applyOp s (.create name now))
      (List.replicate k (StoreOp.create name now))).nextID = _
    have hb := wrap64_bounds (s.nextID + 1)
    have happ : (applyOp s (.create name now)).nextID = wrap64 (s.nextID + 1) := rfl
    rw [ih (applyOp s (.create name now)) (by rw [happ]; exact hb.1)
      (by rw [happ]; exact hb.2), happ, wrap64_add_left]
    congr 1
    push_cast
    ring

/-- C1 counterexample: with `2^63` `Create` calls from a fresh store the
claim fails — the Go `int` counter overflows at the `2^63`-th call, whose
returned id wraps to `-2^63`, so the returned ids are not strictly
increasing. -/
theorem create_ids_wrap_counterexample :
    ¬ (createdIds newUserStore
        (List.replicate (2 ^ 63) (StoreOp.create "x" 0))).Pairwise (· < ·) := by
  intro hpair
  have hsplit : List.replicate (2 ^ 63) (StoreOp.create "x" 0) =
      List.replicate (2 ^ 63 - 1) (StoreOp.create "x" 0)
        ++ [StoreOp.create "x" 0] := by
    rw [← List.replicate_succ']
    congr 1
  rw [hsplit, createdIds_append, List.pairwise_append] at hpair
  obtain ⟨-, -, hcross⟩ := hpair
  have hbudget : newUserStore.nextID
      + countCreates (List.replicate (2 ^ 63 - 1) (StoreOp.create "x" 0))
        ≤ 2 ^ 63 := by
    rw [countCreates_replicate]
    decide
  obtain ⟨hA, -⟩ := createdIds_intRange _ newUserStore storeInv_new hbudget
  have h1mem : (1 : Int) ∈ createdIds newUserStore
      (List.replicate (2 ^ 63 - 1) (StoreOp.create "x" 0)) := by
    rw [hA, countCreates_replicate]
    have hk : (2 : Nat) ^ 63 - 1 = (2 ^ 63 - 2) + 1 := by decide
    rw [hk]
    show (1 : Int) ∈ newUserStore.nextID :: intRange (newUserStore.nextID + 1) _
    exact List.mem_cons_self _ _
  have hmid : (runStore newUserStore
      (List.replicate (2 ^ 63 - 1) (StoreOp.create "x" 0))).nextID
        = -(2 ^ 63) := by
    rw [replicate_creates_nextID "x" 0 (2 ^ 63 - 1) newUserStore
      (by decide) (by decide)]
    decide
  have hBmem : (-(2 ^ 63) : Int) ∈ createdIds (runStore newUserStore
      (List.replicate (2 ^ 63 - 1) (StoreOp.create "x" 0)))
        [StoreOp.create "x" 0] := by
    rw [createdIds_single_create, hmid]
    exact List.mem_cons_self _ _
  have := hcross 1 h1mem (-(2 ^ 63)) hBmem
  omega

theorem lookup_preserved :
    ∀ (ops : List StoreOp) (s : UserStore) (id : Int) (u : User),
      storeGet s id = some u →
      -(2 ^ 63) ≤ s.nextID → s.nextID < 2 ^ 63 →
      (∀ tid, StoreOp.delete tid ∈ ops → tid ≠ id) →
      (∀ j : Nat, j < countCreates ops → wrap64 (s.nextID + j) ≠ id) →
      storeGet (runStore s ops) id = some u := by
  intro ops
  induction ops with
  | nil => intro s id u hget _ _ _ _; exact hget
  | cons op rest ih =>
    intro s id u hget hlo hhi hnd hwrap
    have hnd' : ∀ tid, StoreOp.delete tid ∈ rest → tid ≠ id := fun tid ht =>
      hnd tid (List.mem_cons_of_mem op ht)
    cases op with
    | create name now =>
      have hid : s.nextID ≠ id := by
        have h0 := hwrap 0 (by show 0 < countCreates rest + 1; omega)
        rw [show ((0 : Nat) : Int) = 0 from rfl, add_zero,
          wrap64_eq_self s.nextID hlo hhi] at h0
        exact h0
      have hb := wrap64_bounds (s.nextID + 1)
      apply ih (applyOp s (.create name now)) id u ?_ hb.1 hb.2 hnd' ?_
      · show mapLookup (mapSet s.items s.nextID ⟨s.nextID, name, now⟩) id = some u
        rw [mapLookup_set_ne s.items s.nextID id _ (fun hc => hid hc.symm)]
        exact hget
      · intro j hj
        show wrap64 (wrap64 (s.nextID + 1) + j) ≠ id
        rw [wrap64_add_left]
        have := hwrap (j + 1) (by show j + 1 < countCreates rest + 1; omega)
        rw [show s.nextID + 1 + (j : Int) = s.nextID + ((j + 1 : Nat) : Int) by
          push_cast; ring]
        exact this
    | get gid => exact ih s id u hget hlo hhi hnd' hwrap
    | delete tid =>
      have htid : tid ≠ id := hnd tid (List.mem_cons_self _ _)
      have hidt : id ≠ tid := fun hc => htid hc.symm
      have hnext : (storeDelete s tid).2.nextID = s.nextID := by
        unfold storeDelete
        cases mapLookup s.items tid <;> rfl
      apply ih (applyOp s (.delete tid)) id u ?_ ?_ ?_ hnd' ?_
      · show storeGet (storeDelete s tid).2 id = some u
        unfold storeDelete
        cases mapLookup s.items tid with
        | none => exact hget
        | some v =>
          show mapLookup (mapErase s.items tid) id = some u
          rw [mapLookup_erase_ne s.items tid id hidt]
          exact hget
      · show -(2 ^ 63) ≤ (storeDelete s tid).2.nextID
        rw [hnext]; exact hlo
      · show (storeDelete s tid).2.nextID < 2 ^ 63
        rw [hnext]; exact hhi
      · intro j hj
        show wrap64 ((storeDelete s tid).2.nextID + j) ≠ id
        rw [hnext]
        exact hwrap j hj
    | list => exact ih s id u hget hlo hhi hnd' hwrap

/-- C4 (amended): after a `Create` returned a record, every later `Get` of
its id — through any interleaving of further operations that never deletes
that id and contains fewer than `2^64` `Create` calls (so the wrapping
64-bit id counter cannot come back around to the created id) — returns
exactly that record (same id, name and creation time), and `Get` itself
never mutates the store. -/
theorem get_after_create_stable (s : UserStore) (name : String) (now : Nat)
    (ops : List StoreOp)
    (hnd : ∀ tid, StoreOp.delete tid ∈ ops →
      tid ≠ (storeCreate s name now).1.id)
    (hk : countCreates ops < 2 ^ 64) :
    storeGet (runStore (storeCreate s name now).2 ops)
        (storeCreate s name now).1.id = some (storeCreate s name now).1 ∧
    (∀ st : UserStore, ∀ id : Int, applyOp st (StoreOp.get id) = st) := by
  constructor
  · have hb := wrap64_bounds (s.nextID + 1)
    apply lookup_preserved ops (storeCreate s name now).2 s.nextID
      ⟨s.nextID, name, now⟩ ?_ hb.1 hb.2 hnd ?_
    · exact mapLookup_set_self s.items s.nextID ⟨s.nextID, name, now⟩
    · intro j hj heq
      rw [show (storeCreate s name now).2.nextID = wrap64 (s.nextID + 1)
        from rfl, wrap64_add_left] at heq
      have hj2 : (j : Int) < 2 ^ 64 - 1 := by
        have hj1 : (j : Int) < countCreates ops := by exact_mod_cast hj
        have hk1 : (countCreates ops : Int) < 2 ^ 64 := by exact_mod_cast hk
        omega
      unfold wrap64 at heq
      omega
  · intro st id; rfl

theorem get_after_create_stable_witness :
    storeGet
      (runStore (storeCreate newUserStore "Ada" 5).2
        [StoreOp.create "Bob" 6, StoreOp.delete 2, StoreOp.list, StoreOp.get 1])
      (storeCreate newUserStore "Ada" 5).1.id = some ⟨1, "Ada", 5⟩ := by
  have h := get_after_create_stable newUserStore "Ada" 5
    [StoreOp.create "Bob" 6, StoreOp.delete 2, StoreOp.list, StoreOp.get 1]
    ?_ (by decide)
  · exact h.1
  · intro tid ht
    simp only [List.mem_cons, List.not_mem_nil, or_false] at ht
    rcases ht with ht | ht | ht | ht
    · cases ht
    · cases ht; decide
    · cases ht
    · cases ht

/-- C4 counterexample: with `2^64` intervening `Create` calls (and no
`Delete` at all) the claim fails on the source — the wrapping `int`
counter comes back around to the created id `1` and `s.items[u.ID] = u`
silently overwrites the record, so a later `Get` no longer returns the
originally created user. -/
theorem get_after_create_wrap_counterexample :
    (∀ tid : Int, StoreOp.delete tid ∉
      List.replicate (2 ^ 64) (StoreOp.create "x" 9)) ∧
    storeGet
        (runStore (storeCreate newUserStore "Ada" 0).2
          (List.replicate (2 ^ 64) (StoreOp.create "x" 9)))
        (storeCreate newUserStore "Ada" 0).1.id = some ⟨1, "x", 9⟩ ∧
    some (⟨1, "x", 9⟩ : User) ≠ some (storeCreate newUserStore "Ada" 0).1 := by
  refine ⟨?_, ?_, by decide⟩
  · intro tid hmem
    have := List.eq_of_mem_replicate hmem
    cases this
  · have hsplit : List.replicate (2 ^ 64) (StoreOp.create "x" 9) =
        List.replicate (2 ^ 64 - 1) (StoreOp.create "x" 9)
          ++ [StoreOp.create "x" 9] := by
      rw [← List.replicate_succ']
      congr 1
    rw [hsplit, runStore_append]
    have h2 : (storeCreate newUserStore "Ada" 0).2.nextID = 2 := by decide
    have hnext : (runStore (storeCreate newUserStore "Ada" 0).2
        (List.replicate (2 ^ 64 - 1) (StoreOp.create "x" 9))).nextID = 1 := by
      rw [replicate_creates_nextID "x" 9 (2 ^ 64 - 1)
        (storeCreate newUserStore "Ada" 0).2 (by rw [h2]; decide)
        (by rw [h2]; decide), h2]
      decide
    have hstep : ∀ t : UserStore, t.nextID = 1 →
        storeGet (runStore t [StoreOp.create "x" 9]) 1 = some ⟨1, "x", 9⟩ := by
      intro t ht
      show mapLookup (mapSet t.items t.nextID ⟨t.nextID, "x", 9⟩) 1 = some ⟨1, "x", 9⟩
      rw [ht]
      exact mapLookup_set_self t.items 1 ⟨1, "x", 9⟩
    exact hstep _ hnext

theorem storeDelete_fst_eq_false (s : UserStore) (id : Int)
    (h : storeGet s id = none) : (storeDelete s id).1 = false := by
  unfold storeGet at h
  unfold storeDelete
  rw [h]

/-- C3: `Delete` returns `true` exactly when the id is currently present; a
`false` return leaves the store untouched; after a successful delete the id
is gone (so a second delete returns `false`) while every other id is
unaffected; and the first delete of a freshly created id returns `true`. -/
theorem delete_spec (s : UserStore) (id : Int) :
    ((storeDelete s id).1 = true ↔ storeGet s id ≠ none) ∧
    ((storeDelete s id).1 = false → (storeDelete s id).2 = s) ∧
    (∀ u, storeGet s id = some u →
      (storeDelete s id).1 = true ∧
      storeGet (storeDelete s id).2 id = none ∧
      (storeDelete (storeDelete s id).2 id).1 = false ∧
      ∀ id', id' ≠ id → storeGet (storeDelete s id).2 id' = storeGet s id') ∧
    (∀ name now,
      (storeDelete (storeCreate s name now).2 (storeCreate s name now).1.id).1
        = true) := by
  refine ⟨?_, ?_, ?_, ?_⟩
  · unfold storeDelete storeGet
    cases mapLookup s.items id with
    | none => simp
    | some u => simp
  · unfold storeDelete
    cases mapLookup s.items id with
    | none => intro _; rfl
    | some u => intro hc; cases hc
  · intro u hu
    unfold storeGet at hu
    have h1 : storeDelete s id = (true, ⟨s.nextID, mapErase s.items id⟩) := by
      unfold storeDelete; rw [hu]
    have h2 : storeGet (storeDelete s id).2 id = none := by
      rw [h1]; exact mapLookup_erase_self s.items id
    refine ⟨by rw [h1], h2, ?_, ?_⟩
    · apply storeDelete_fst_eq_false
      exact h2
    · intro id' hne
      rw [h1]
      show mapLookup (mapErase s.items id) id' = storeGet s id'
      exact mapLookup_erase_ne s.items id id' hne
  · intro name now
    show (storeDelete (storeCreate s name now).2 s.nextID).1 = true
    unfold storeDelete
    have : mapLookup (storeCreate s name now).2.items s.nextID
        = some ⟨s.nextID, name, now⟩ :=
      mapLookup_set_self s.items s.nextID ⟨s.nextID, name, now⟩
    rw [this]

theorem delete_spec_witness :
    (storeDelete (storeCreate newUserStore "Ada" 0).2 1).1 = true ∧
    storeGet (storeDelete (storeCreate newUserStore "Ada" 0).2 1).2 1 = none ∧
    (storeDelete (storeDelete (storeCreate newUserStore "Ada" 0).2 1).2 1).1
      = false := by
  have h := delete_spec (storeCreate newUserStore "Ada" 0).2 1
  have hc := h.2.2.1 ⟨1, "Ada", 0⟩ (by decide)
  exact ⟨hc.1, hc.2.1, hc.2.2.1⟩

/-- A sequence of `Create` calls, as store operations. -/
def createsOf (l : List (String × Nat)) : List StoreOp :=
  l.map fun p => StoreOp.create p.1 p.2

theorem createsOf_append (l1 l2 : List (String × Nat)) :
    createsOf (l1 ++ l2) = createsOf l1 ++ createsOf l2 :=
  List.map_append _ l1 l2

theorem createsOf_cons (q : String × Nat) (l : List (String × Nat)) :
    createsOf (q :: l) = StoreOp.create q.1 q.2 :: createsOf l :=
  rfl

theorem runStore_cons (s : UserStore) (op : StoreOp) (ops : List StoreOp) :
    runStore s (op :: ops) = runStore (applyOp s op) ops :=
  rfl

theorem createsOf_replicate (k : Nat) (name : String) (now : Nat) :
    createsOf (List.replicate k (name, now)) =
      List.replicate k (StoreOp.create name now) := by
  unfold createsOf
  rw [List.map_replicate]

theorem storeIds_runStore :
    ∀ (ops : List StoreOp) (s : UserStore),
      (∀ p ∈ s.items, p.2.id = p.1) →
      ∀ p ∈ (runStore s ops).items, p.2.id = p.1 := by
  intro ops
  induction ops with
  | nil => intro s h; exact h
  | cons op rest ih =>
    intro s h
    apply ih
    cases op with
    | create name now =>
      intro p hp
      show p.2.id = p.1
      have hp' : p ∈ mapSet s.items s.nextID ⟨s.nextID, name, now⟩ := hp
      unfold mapSet at hp'
      rcases List.mem_cons.1 hp' with hp' | hp'
      · subst hp'; rfl
      · exact h p (mem_of_mem_mapErase s.items s.nextID p hp')
    | get id => exact h
    | delete id =>
      intro p hp
      have hp' : p ∈ (storeDelete s id).2.items := hp
      revert hp'
      unfold storeDelete
      cases mapLookup s.items id with
      | none => exact h p
      | some u =>
        intro hp'
        exact h p (mem_of_mem_mapErase s.items id p hp')
    | list => exact h

theorem creates_fresh_general :
    ∀ (l : List (String × Nat)) (s : UserStore),
      -(2 ^ 63) ≤ s.nextID → s.nextID < 2 ^ 63 →
      (s.items.map Prod.fst).Nodup →
      (∀ j : Nat, j < l.length → ∀ p ∈ s.items, wrap64 (s.nextID + j) ≠ p.1) →
      (∀ j j' : Nat, j < j' → j' < l.length →
        wrap64 (s.nextID + j) ≠ wrap64 (s.nextID + j')) →
      (runStore s (createsOf l)).items.length = s.items.length + l.length ∧
      ((runStore s (createsOf l)).items.map Prod.fst).Nodup := by
  intro l
  induction l with
  | nil => intro s _ _ hnd _ _; exact ⟨rfl, hnd⟩
  | cons q rest ih =>
    intro s hlo hhi hnd hfresh hinj
    have hw0 : wrap64 (s.nextID + ((0 : Nat) : Int)) = s.nextID := by
      rw [show ((0 : Nat) : Int) = 0 from rfl, add_zero]
      exact wrap64_eq_self s.nextID hlo hhi
    have hkey : ∀ p ∈ s.items, p.1 ≠ s.nextID := by
      intro p hp hc
      have := hfresh 0 (by show 0 < rest.length + 1; omega) p hp
      rw [hw0] at this
      exact this hc.symm
    have hitems : (applyOp s (.create q.1 q.2)).items
        = (s.nextID, ⟨s.nextID, q.1, q.2⟩) :: s.items := by
      show mapSet s.items s.nextID ⟨s.nextID, q.1, q.2⟩ = _
      unfold mapSet
      rw [mapErase_eq_self s.items s.nextID hkey]
    have hnextID : (applyOp s (.create q.1 q.2)).nextID
        = wrap64 (s.nextID + 1) := rfl
    have hb := wrap64_bounds (s.nextID + 1)
    have hshift : ∀ j : Nat,
        wrap64 ((applyOp s (.create q.1 q.2)).nextID + j)
          = wrap64 (s.nextID + ((j + 1 : Nat) : Int)) := by
      intro j
      rw [hnextID, wrap64_add_left]
      congr 1
      push_cast
      ring
    have hnd' : ((applyOp s (.create q.1 q.2)).items.map Prod.fst).Nodup := by
      rw [hitems, List.map_cons, List.nodup_cons]
      refine ⟨?_, hnd⟩
      intro hmem
      obtain ⟨p, hp, hpe⟩ := List.mem_map.1 hmem
      exact hkey p hp hpe
    have hfresh' : ∀ j : Nat, j < rest.length →
        ∀ p ∈ (applyOp s (.create q.1 q.2)).items,
          wrap64 ((applyOp s (.create q.1 q.2)).nextID + j) ≠ p.1 := by
      intro j hj p hp
      rw [hshift j]
      rw [hitems] at hp
      rcases List.mem_cons.1 hp with hp | hp
      · subst hp
        show wrap64 (s.nextID + ((j + 1 : Nat) : Int)) ≠ s.nextID
        intro hc
        have := hinj 0 (j + 1) (by omega)
          (by show j + 1 < rest.length + 1; omega)
        rw [hw0] at this
        exact this hc.symm
      · exact hfresh (j + 1) (by show j + 1 < rest.length + 1; omega) p hp
    have hinj' : ∀ j j' : Nat, j < j' → j' < rest.length →
        wrap64 ((applyOp s (.create q.1 q.2)).nextID + j)
          ≠ wrap64 ((applyOp s (.create q.1 q.2)).nextID + j') := by
      intro j j' hjj hj'
      rw [hshift j, hshift j']
      exact hinj (j + 1) (j' + 1) (by omega)
        (by show j' + 1 < rest.length + 1; omega)
    obtain ⟨hlen, hnodup⟩ := ih (applyOp s (.create q.1 q.2))
      (by rw [hnextID]; exact hb.1) (by rw [hnextID]; exact hb.2)
      hnd' hfresh' hinj'
    constructor
    · show (runStore (applyOp s (.create q.1 q.2)) (createsOf rest)).items.length
        = s.items.length + (rest.length + 1)
      rw [hlen, hitems]
      simp only [List.length_cons]
      omega
    · exact hnodup

/-- C5 (amended): after `N` successful creates and zero deletes on a fresh
store, as long as `N ≤ 2^64` (so the wrapping 64-bit id counter cannot
revisit an already used key and overwrite it), `List` returns exactly `N`
records with pairwise distinct ids; in general `List` returns exactly the
currently stored records (in the model's unspecified order) and mutates
nothing. -/
theorem list_after_creates (l : List (String × Nat)) (hn : l.length ≤ 2 ^ 64) :
    (storeList (runStore newUserStore (createsOf l))).length = l.length ∧
    ((storeList (runStore newUserStore (createsOf l))).map User.id).Nodup ∧
    (∀ st : UserStore, storeList st = st.items.map Prod.snd) ∧
    (∀ st : UserStore, applyOp st StoreOp.list = st) := by
  have hg := creates_fresh_general l newUserStore (by decide) (by decide)
    List.nodup_nil
    (fun j _ p hp => absurd hp (List.not_mem_nil p))
    ?hinj
  case hinj =>
    intro j j' hjj hj' heq
    have hj2 : (j : Int) < (j' : Int) := by exact_mod_cast hjj
    have hj3 : (j' : Int) < 2 ^ 64 := by
      have h1 : (j' : Int) < (l.length : Int) := by exact_mod_cast hj'
      have h2 : (l.length : Int) ≤ 2 ^ 64 := by exact_mod_cast hn
      omega
    have heq' : wrap64 (1 + j) = wrap64 (1 + j') := heq
    unfold wrap64 at heq'
    omega
  obtain ⟨hlen, hnd⟩ := hg
  refine ⟨?_, ?_, fun st => rfl, fun st => rfl⟩
  · show ((runStore newUserStore (createsOf l)).items.map Prod.snd).length
      = l.length
    rw [List.length_map, hlen]
    simp [newUserStore]
  · have hids := storeIds_runStore (createsOf l) newUserStore
      (fun p hp => absurd hp (List.not_mem_nil p))
    have heq : (storeList (runStore newUserStore (createsOf l))).map User.id
        = (runStore newUserStore (createsOf l)).items.map Prod.fst := by
      simp only [storeList, List.map_map]
      apply List.map_congr_left
      intro p hp
      exact hids p hp
    rw [heq]
    exact hnd

theorem list_after_creates_witness :
    (storeList (runStore newUserStore (createsOf [("a", 0), ("b", 1)]))).length
      = 2 := by
  have h := (list_after_creates [("a", 0), ("b", 1)] (by decide)).1
  exact h

theorem lookup_preserved_creates :
    ∀ (l : List (String × Nat)) (s : UserStore) (k : Int),
      mapLookup s.items k ≠ none →
      mapLookup (runStore s (createsOf l)).items k ≠ none := by
  intro l
  induction l with
  | nil => intro s k h; exact h
  | cons q rest ih =>
    intro s k h
    apply ih
    show mapLookup (mapSet s.items s.nextID ⟨s.nextID, q.1, q.2⟩) k ≠ none
    by_cases hk : k = s.nextID
    · subst hk
      rw [mapLookup_set_self]
      intro hc
      cases hc
    · rw [mapLookup_set_ne s.items s.nextID k _ hk]
      exact h

theorem mapErase_length_of_lookup :
    ∀ (m : List (Int × User)) (k : Int),
      (m.map Prod.fst).Nodup → mapLookup m k ≠ none →
      (mapErase m k).length + 1 = m.length := by
  intro m
  induction m with
  | nil => intro k _ h; exact absurd rfl h
  | cons q rest ih =>
    intro k hnd h
    by_cases hq : q.1 = k
    · have hrest : ∀ p ∈ rest, p.1 ≠ k := by
        intro p hp hc
        have hmem : p.1 ∈ rest.map Prod.fst := List.mem_map_of_mem Prod.fst hp
        rw [hc, ← hq] at hmem
        exact (List.nodup_cons.1 (by simpa using hnd)).1 hmem
      simp only [mapErase, if_pos hq]
      rw [mapErase_eq_self rest k hrest]
      simp
    · simp only [mapErase, if_neg hq]
      have h' : mapLookup rest k ≠ none := by
        intro hc
        apply h
        show mapLookup (q :: rest) k = none
        simp only [mapLookup, if_neg hq]
        exact hc
      have := ih k (List.nodup_cons.1 (by simpa using hnd)).2 h'
      simp only [List.length_cons]
      omega

/-- C5 counterexample: with `N = 2^64 + 1` creates (and zero deletes) from
a fresh store the claim fails on the source — the wrapping `int` counter
revisits key 1 and the map assignment overwrites an existing record, so
`List()` returns `2^64` records, fewer than `N`. -/
theorem list_length_wrap_counterexample :
    (storeList (runStore newUserStore
        (createsOf (List.replicate (2 ^ 64 + 1) ("x", 0))))).length = 2 ^ 64 ∧
    (2 ^ 64 : Nat) ≠ 2 ^ 64 + 1 := by
  refine ⟨?_, by omega⟩
  have hsplit : (List.replicate (2 ^ 64 + 1) ("x", 0) : List (String × Nat)) =
      List.replicate (2 ^ 64) ("x", 0) ++ [("x", 0)] := by
    rw [← List.replicate_succ']
  have hco : createsOf (List.replicate (2 ^ 64) ("x", 0) ++ [("x", 0)]) =
      createsOf (List.replicate (2 ^ 64) ("x", 0)) ++ [StoreOp.create "x" 0] :=
    createsOf_append (List.replicate (2 ^ 64) ("x", 0)) [("x", 0)]
  rw [hsplit, hco, runStore_append]
  have hgen := creates_fresh_general (List.replicate (2 ^ 64) ("x", 0))
    newUserStore (by decide) (by decide) List.nodup_nil
    (fun j _ p hp => absurd hp (List.not_mem_nil p))
    ?hinj
  case hinj =>
    intro j j' hjj hj' heq
    rw [List.length_replicate] at hj'
    have hj2 : (j : Int) < (j' : Int) := by exact_mod_cast hjj
    have hj3 : (j' : Int) < 2 ^ 64 := by exact_mod_cast hj'
    have heq' : wrap64 (1 + j) = wrap64 (1 + j') := heq
    unfold wrap64 at heq'
    omega
  obtain ⟨hlen, hnd⟩ := hgen
  rw [List.length_replicate] at hlen
  have hkey1 : mapLookup (runStore newUserStore
      (createsOf (List.replicate (2 ^ 64) ("x", 0)))).items 1 ≠ none := by
    have hsplit1 : (List.replicate (2 ^ 64) ("x", 0) : List (String × Nat)) =
        ("x", 0) :: List.replicate (2 ^ 64 - 1) ("x", 0) := by
      conv_lhs => rw [show (2 : Nat) ^ 64 = (2 ^ 64 - 1) + 1 by decide]
      rw [List.replicate_succ]
    rw [hsplit1, createsOf_cons, runStore_cons]
    apply lookup_preserved_creates
    decide
  have hmid : (runStore newUserStore
      (createsOf (List.replicate (2 ^ 64) ("x", 0)))).nextID = 1 := by
    have hrepl : createsOf (List.replicate (2 ^ 64) ("x", 0)) =
        List.replicate (2 ^ 64) (StoreOp.create "x" 0) :=
      createsOf_replicate (2 ^ 64) "x" 0
    rw [hrepl, replicate_creates_nextID "x" 0 (2 ^ 64) newUserStore
      (by decide) (by decide)]
    decide
  have hstep : ∀ t : UserStore, t.nextID = 1 →
      (t.items.map Prod.fst).Nodup → mapLookup t.items 1 ≠ none →
      t.items.length = 2 ^ 64 →
      (storeList (runStore t [StoreOp.create "x" 0])).length = 2 ^ 64 := by
    intro t ht hnd' hlk hlen'
    show ((mapSet t.items t.nextID ⟨t.nextID, "x", 0⟩).map Prod.snd).length
      = 2 ^ 64
    rw [List.length_map]
    unfold mapSet
    rw [List.length_cons, ht]
    have := mapErase_length_of_lookup t.items 1 hnd' hlk
    omega
  exact hstep _ hmid hnd hkey1
    (by rw [hlen, show newUserStore.items.length = 0 from rfl, Nat.zero_add])
/-- Go `unicode.IsSpace`: Unicode White_Space property (as used by
`strings.TrimSpace`). -/
def goIsSpace (c : Char) : Bool :=
  c = ' ' || c = '\t' || c = '\n' || c.toNat = 11 || c.toNat = 12 || c = '\r' ||
  c.toNat = 0x85 || c.toNat = 0xA0 || c.toNat = 0x1680 ||
  (0x2000 ≤ c.toNat && c.toNat ≤ 0x200A) || c.toNat = 0x2028 ||
  c.toNat = 0x2029 || c.toNat = 0x202F || c.toNat = 0x205F || c.toNat = 0x3000

/-- Go `strings.TrimSpace`: drop leading and trailing white space. -/
def goTrimSpace (s : String) : String :=
  ⟨((s.data.dropWhile goIsSpace).reverse.dropWhile goIsSpace).reverse⟩

/-- Go `strings.Trim(s, "/")`: drop leading and trailing slashes. -/
def goTrimSlashes (s : String) : String :=
  ⟨((s.data.dropWhile (fun c => c = '/')).reverse.dropWhile
      (fun c => c = '/')).reverse⟩

/-- Helper for Go `strings.Split(s, "/")` on the character list. -/
def splitSlashAux : List Char → List (List Char)
  | [] => [[]]
  | c :: rest =>
    match splitSlashAux rest with
    | [] => [[c]]
    | p :: ps => if c = '/' then [] :: p :: ps else (c :: p) :: ps

/-- Go `strings.Split(s, "/")`. -/
def goSplitSlash (s : String) : List String :=
  (splitSlashAux s.data).map fun cs => ⟨cs⟩

/-- ASCII digit test. -/
def isDigit (c : Char) : Bool :=
  '0' ≤ c && c ≤ '9'

/-- Value of a digit string. -/
def digitsVal (ds : List Char) : Nat :=
  ds.foldl (fun a c => a * 10 + (c.toNat - 48)) 0

/-- Mathematical value of an optionally signed decimal numeral (no range
restriction): `none` when the character list is not of the form
`[+-]?[0-9]+`. -/
def decimalCore (cs : List Char) : Option Int :=
  let p : Bool × List Char :=
    match cs with
    | '-' :: r => (true, r)
    | '+' :: r => (false, r)
    | r => (false, r)
  if p.2.isEmpty then none
  else if p.2.all isDigit then
    some (if p.1 then -(Int.ofNat (digitsVal p.2)) else Int.ofNat (digitsVal p.2))
  else none

/-- Mathematical value of an optionally signed decimal numeral string. -/
def decimalValue (s : String) : Option Int :=
  decimalCore s.data

/-- Go `strconv.Atoi` (64-bit platform): optionally signed decimal parse
that fails outside the signed 64-bit range (`ErrRange` is an error, which
is all the callers in this repository look at). -/
def goAtoi (s : String) : Option Int :=
  match decimalValue s with
  | none => none
  | some v => if -(2 ^ 63) ≤ v ∧ v ≤ 2 ^ 63 - 1 then some v else none

/-- `parsePositiveInt` from users_handler.go: `strings.TrimSpace`, then
`strconv.Atoi`, rejecting errors and values `≤ 0`. -/
def parsePositiveInt (s : String) : Option Int :=
  match goAtoi (goTrimSpace s) with
  | none => none
  | some n => if n ≤ 0 then none else some n

/-- The values the repository puts into `Details any` / the optional
`details` key of `errorJSON`: absent, a list of field messages, or the
method map written by `requireMethods`. `pathInfo` is the path object of
the router's final 404. -/
inductive ErrDetails where
  | noDetails
  | fields (l : List String)
  | methodAllow (method : String) (allow : List String)
  | pathInfo (p : String)
deriving DecidableEq, Repr

/-- `AppError` from app_error.go (`Status`, `Code`, `Message`, `Details`).
The untyped `Details any` field is restricted to the shapes the repository
actually stores in it. -/
structure AppError where
  status : Nat
  code : String
  message : String
  details : ErrDetails
deriving DecidableEq, Repr

/-- `(*UserService).CreateUser` from users_service.go: trim the name; empty
after trimming fails with the validation `AppError` and leaves the store
untouched; otherwise delegate to the store's `Create` with the trimmed
name. -/
def createUser (st : UserStore) (name : String) (now : Nat) :
    Except AppError User × UserStore :=
  let trimmed := goTrimSpace name
  if trimmed = "" then
    (Except.error ⟨400, "validation_failed", "missing required fields",
      ErrDetails.fields ["name is required"]⟩, st)
  else
    let r := storeCreate st trimmed now
    (Except.ok r.1, r.2)

/-- `(*UserService).GetUser` from users_service.go: store `Get`, absence
becomes the 404 `AppError`. -/
def getUser (st : UserStore) (id : Int) : Except AppError User :=
  match storeGet st id with
  | none => Except.error ⟨404, "not_found", "resource not found",
      ErrDetails.noDetails⟩
  | some u => Except.ok u

/-- `(*UserService).DeleteUser` from users_service.go: store `Delete`, a
`false` result becomes the 404 `AppError`. -/
def deleteUser (st : UserStore) (id : Int) : Except AppError Unit × UserStore :=
  let r := storeDelete st id
  if r.1 then (Except.ok (), r.2)
  else (Except.error ⟨404, "not_found", "resource not found",
    ErrDetails.noDetails⟩, r.2)

/-- `(*UserService).ListUsers` from users_service.go: pass-through. -/
def listUsers (st : UserStore) : List User :=
  storeList st

/-- The JSON body a response carries (the uniform envelope of the
handlers: either an `errorJSON` object or one of the success payloads). -/
inductive RespBody where
  | err (code message : String) (details : ErrDetails)
  | userBody (u : User)
  | usersList (items : List User) (count : Nat)
  | deletedBody (id : Int)
  | profileBody (id : Int)
  | orderBody (id : Int) (orderId : String)
deriving DecidableEq, Repr

/-- An HTTP response of the router: status code, optional `Allow` header
(set only by `requireMethods`) and JSON body. -/
structure Response where
  status : Nat
  allowHeader : Option String
  body : RespBody
deriving DecidableEq, Repr

/-- Response written by `errorJSON` (no extra headers). -/
def errResp (status : Nat) (code message : String) (details : ErrDetails) :
    Response :=
  ⟨status, none, RespBody.err code message details⟩

/-- `requireMethods` from the helpers: `none` when the request method is in
`allowed`; otherwise the 405 response carrying the `Allow` header and the
method/allow detail map. -/
def requireMethods (method : String) (allowed : List String) :
    Option Response :=
  if method ∈ allowed then none
  else some ⟨405, some (String.intercalate ", " allowed),
    RespBody.err "method_not_allowed" "method not allowed"
      (ErrDetails.methodAllow method allowed)⟩

/-- A service-layer call made while handling one request (used to state
that validation failures never reach the service or the store). -/
inductive SvcCall where
  | createCall (name : String)
  | getCall (id : Int)
  | deleteCall (id : Int)
  | listCall
deriving DecidableEq, Repr

/-- A JSON value (for the POST body). -/
inductive Json where
  | null
  | boolVal (b : Bool)
  | num (n : Int)
  | str (s : String)
  | arr (items : List Json)
  | obj (fields : List (String × Json))

/-- ASCII lower-casing of a character. -/
def lowerChar (c : Char) : Char :=
  if 'A' ≤ c ∧ c ≤ 'Z' then Char.ofNat (c.toNat + 32) else c

/-- ASCII lower-casing of a string (model of `encoding/json`'s
case-insensitive field-name match; the only struct field here, `name`, is
ASCII). -/
def lowerAscii (s : String) : String :=
  ⟨s.data.map lowerChar⟩

/-- `createUserRequest` from users_handler.go: `Name string` with JSON tag
`name`. -/
structure CreateUserRequest where
  name : String
deriving DecidableEq, Repr

/-- Decoding the fields of a JSON object into `createUserRequest` with
`DisallowUnknownFields`: a key matching `name` (case-insensitively, per
`encoding/json`) must hold a string (or `null`, which leaves the field);
any other key is an unknown-field error. Duplicate keys decode in order,
last one winning, as `encoding/json` does. -/
def decodeFields : CreateUserRequest → List (String × Json) →
    Except String CreateUserRequest
  | acc, [] => Except.ok acc
  | acc, (k, v) :: rest =>
    if lowerAscii k = "name" then
      match v with
      | .str s => decodeFields ⟨s⟩ rest
      | .null => decodeFields acc rest
      | _ => Except.error "json: cannot unmarshal value into field name"
    else Except.error ("json: unknown field " ++ k)

/-- Decoding one JSON value into `createUserRequest`: an object decodes
field-wise, `null` leaves the zero value, anything else is a type error. -/
def decodeCreateUserRequest (j : Json) : Except String CreateUserRequest :=
  match j with
  | .null => Except.ok ⟨""⟩
  | .obj fields => decodeFields ⟨""⟩ fields
  | _ => Except.error "json: cannot unmarshal value into createUserRequest"

/-- An HTTP request body, abstracted to what the JSON decoder sees: either
not well-formed JSON at all, or a stream of top-level JSON values. -/
inductive JsonBody where
  | malformed
  | values (vs : List Json)

/-- The `http.MaxBytesReader` cap in `readJSON`: `1 << 20` bytes. -/
def maxBodyBytes : Nat := 1048576

/-- `readJSON` from the helpers, instantiated at `createUserRequest`: the
body is capped at 1 MiB (reading past the cap fails the decode), the first
JSON value is decoded with unknown fields disallowed, and a second decode
must hit `EOF` — any further value is `unexpected extra JSON content`. An
empty body fails the first decode with `EOF`. -/
def readJSONCreateUser (size : Nat) (b : JsonBody) :
    Except String CreateUserRequest :=
  if maxBodyBytes < size then Except.error "http: request body too large"
  else
    match b with
    | .malformed => Except.error "invalid character in JSON input"
    | .values [] => Except.error "EOF"
    | .values (v :: rest) =>
      match decodeCreateUserRequest v with
      | .error e => Except.error e
      | .ok req =>
        match rest with
        | [] => Except.ok req
        | _ => Except.error "unexpected extra JSON content"

/-- `(*UsersHandler).HandleUsers` from users_handler.go (route `/users`):
method negotiation over GET/POST, then list or decode-validate-create.
After `requireMethods` passes, the method is GET or POST, so the Go
`switch` is modelled as a two-way branch. The third component records the
service calls made. -/
def handleUsers (st : UserStore) (method : String) (size : Nat)
    (b : JsonBody) (now : Nat) : Response × UserStore × List SvcCall :=
  match requireMethods method ["GET", "POST"] with
  | some resp => (resp, st, [])
  | none =>
    if method = "GET" then
      let users := listUsers st
      (⟨200, none, RespBody.usersList users users.length⟩, st,
        [SvcCall.listCall])
    else
      match readJSONCreateUser size b with
      | .error e => (errResp 400 "invalid_json" e ErrDetails.noDetails, st, [])
      | .ok req =>
        match createUser st req.name now with
        | (.error ae, st') =>
          (errResp ae.status ae.code ae.message ae.details, st',
            [SvcCall.createCall req.name])
        | (.ok u, st') =>
          (⟨201, none, RespBody.userBody u⟩, st', [SvcCall.createCall req.name])

/-- The path parsing of `HandleUserRoutes`: strip the 7-character
`/users/` prefix, trim surrounding slashes, split on `/`. -/
def pathParts (path : String) : List String :=
  goSplitSlash (goTrimSlashes (path.drop 7))

/-- The dispatch of `HandleUserRoutes` once the segments are known: first
the id parse, then per-shape method negotiation and service calls, in
exactly the source's order (the `orderId` presence check runs before the
user-existence check). After `requireMethods` over GET/DELETE passes, the
Go `switch` is modelled as a two-way branch. -/
def routeUserParts (st : UserStore) (method : String) (path : String)
    (parts : List String) : Response × UserStore × List SvcCall :=
  match parsePositiveInt (parts.headD "") with
  | none =>
    (errResp 400 "invalid_path" "user id must be a positive integer"
      ErrDetails.noDetails, st, [])
  | some id =>
    if parts.length = 1 then
      match requireMethods method ["GET", "DELETE"] with
      | some resp => (resp, st, [])
      | none =>
        if method = "GET" then
          match getUser st id with
          | .error ae =>
            (errResp ae.status ae.code ae.message ae.details, st,
              [SvcCall.getCall id])
          | .ok u => (⟨200, none, RespBody.userBody u⟩, st, [SvcCall.getCall id])
        else
          match deleteUser st id with
          | (.error ae, st') =>
            (errResp ae.status ae.code ae.message ae.details, st',
              [SvcCall.deleteCall id])
          | (.ok _, st') =>
            (⟨200, none, RespBody.deletedBody id⟩, st', [SvcCall.deleteCall id])
    else if parts.length = 2 ∧ parts.getD 1 "" = "profile" then
      match requireMethods method ["GET"] with
      | some resp => (resp, st, [])
      | none =>
        match getUser st id with
        | .error ae =>
          (errResp ae.status ae.code ae.message ae.details, st,
            [SvcCall.getCall id])
        | .ok _ => (⟨200, none, RespBody.profileBody id⟩, st, [SvcCall.getCall id])
    else if parts.length = 3 ∧ parts.getD 1 "" = "orders" then
      match requireMethods method ["GET"] with
      | some resp => (resp, st, [])
      | none =>
        let orderId := goTrimSpace (parts.getD 2 "")
        if orderId = "" then
          (errResp 400 "invalid_path" "orderId is required"
            ErrDetails.noDetails, st, [])
        else
          match getUser st id with
          | .error ae =>
            (errResp ae.status ae.code ae.message ae.details, st,
              [SvcCall.getCall id])
          | .ok _ =>
            (⟨200, none, RespBody.orderBody id orderId⟩, st,
              [SvcCall.getCall id])
    else
      (⟨404, none, RespBody.err "not_found" "resource not found"
        (ErrDetails.pathInfo path)⟩, st, [])

/-- `(*UsersHandler).HandleUserRoutes` from users_handler.go: reject paths
no longer than the `/users/` prefix, otherwise parse the remaining
segments and dispatch. -/
def handleUserRoutes (st : UserStore) (method : String) (path : String) :
    Response × UserStore × List SvcCall :=
  if path.length ≤ 7 then
    (errResp 400 "invalid_path" "user id is required" ErrDetails.noDetails,
      st, [])
  else routeUserParts st method path (pathParts path)

theorem requireMethods_of_mem (method : String) (allowed : List String)
    (h : method ∈ allowed) : requireMethods method allowed = none := by
  unfold requireMethods
  rw [if_pos h]

theorem requireMethods_of_not_mem (method : String) (allowed : List String)
    (h : method ∉ allowed) :
    requireMethods method allowed =
      some ⟨405, some (String.intercalate ", " allowed),
        RespBody.err "method_not_allowed" "method not allowed"
          (ErrDetails.methodAllow method allowed)⟩ := by
  unfold requireMethods
  rw [if_neg h]

theorem readJSON_single_name (size : Nat) (name : String)
    (h : size ≤ maxBodyBytes) :
    readJSONCreateUser size
        (JsonBody.values [Json.obj [("name", Json.str name)]]) =
      Except.ok ⟨name⟩ := by
  have hdec : decodeCreateUserRequest (Json.obj [("name", Json.str name)]) =
      Except.ok ⟨name⟩ := by
    show decodeFields ⟨""⟩ [("name", Json.str name)] = Except.ok ⟨name⟩
    simp only [decodeFields]
    rw [if_pos (by decide : lowerAscii "name" = "name")]
  unfold readJSONCreateUser
  rw [if_neg (by omega)]
  simp only [hdec]

/-- C2: `CreateUser` trims the name; if empty after trimming it fails with
exactly the 400 `validation_failed` / `missing required fields` /
`["name is required"]` error and leaves the store unchanged, and
`POST /users` surfaces that failure as exactly that 400 error body;
otherwise the created (and stored) user's name is the trimmed input. -/
theorem createUser_trims_and_validates (st : UserStore) (name : String)
    (now size : Nat) (hsize : size ≤ maxBodyBytes) :
    (goTrimSpace name = "" →
      createUser st name now =
        (Except.error ⟨400, "validation_failed", "missing required fields",
          ErrDetails.fields ["name is required"]⟩, st) ∧
      handleUsers st "POST" size
          (JsonBody.values [Json.obj [("name", Json.str name)]]) now =
        (errResp 400 "validation_failed" "missing required fields"
          (ErrDetails.fields ["name is required"]), st,
          [SvcCall.createCall name])) ∧
    (goTrimSpace name ≠ "" →
      createUser st name now =
        (Except.ok ⟨st.nextID, goTrimSpace name, now⟩,
          (storeCreate st (goTrimSpace name) now).2) ∧
      storeGet (createUser st name now).2 st.nextID =
        some ⟨st.nextID, goTrimSpace name, now⟩) := by
  constructor
  · intro h
    have hc : createUser st name now =
        (Except.error ⟨400, "validation_failed", "missing required fields",
          ErrDetails.fields ["name is required"]⟩, st) := by
      simp only [createUser]
      rw [if_pos h]
    refine ⟨hc, ?_⟩
    have hmem : requireMethods "POST" ["GET", "POST"] = none :=
      requireMethods_of_mem "POST" ["GET", "POST"] (by decide)
    have hread := readJSON_single_name size name hsize
    simp only [handleUsers, hmem, hread, hc]
    rw [if_neg (by decide : ¬("POST" = "GET"))]
  · intro h
    have hc : createUser st name now =
        (Except.ok ⟨st.nextID, goTrimSpace name, now⟩,
          (storeCreate st (goTrimSpace name) now).2) := by
      simp only [createUser]
      rw [if_neg h]
      rfl
    refine ⟨hc, ?_⟩
    rw [hc]
    exact mapLookup_set_self st.items st.nextID ⟨st.nextID, goTrimSpace name, now⟩

theorem createUser_trims_and_validates_witness :
    createUser newUserStore "   " 0 =
      (Except.error ⟨400, "validation_failed", "missing required fields",
        ErrDetails.fields ["name is required"]⟩, newUserStore) ∧
    handleUsers newUserStore "POST" 12
        (JsonBody.values [Json.obj [("name", Json.str "   ")]]) 0 =
      (errResp 400 "validation_failed" "missing required fields"
        (ErrDetails.fields ["name is required"]), newUserStore,
        [SvcCall.createCall "   "]) ∧
    createUser newUserStore "  Ada  " 7 =
      (Except.ok ⟨1, "Ada", 7⟩, ⟨2, [(1, ⟨1, "Ada", 7⟩)]⟩) := by
  have h1 := (createUser_trims_and_validates newUserStore "   " 0 12
    (by decide)).1 (by decide)
  have h2 := (createUser_trims_and_validates newUserStore "  Ada  " 7 12
    (by decide)).2 (by decide)
  refine ⟨h1.1, h1.2, ?_⟩
  rw [h2.1]
  rfl

/-- C6: a request under `/users/` whose first path segment does not parse
as a positive integer is answered 400 `invalid_path` for every method, the
store is untouched, and no service call is made; a path no longer than the
`/users/` prefix is likewise rejected 400 `invalid_path`. -/
theorem nonpositive_id_segment_rejected (st : UserStore)
    (method path : String) (h7 : 7 < path.length)
    (hparse : parsePositiveInt ((pathParts path).headD "") = none) :
    handleUserRoutes st method path =
      (errResp 400 "invalid_path" "user id must be a positive integer"
        ErrDetails.noDetails, st, []) ∧
    (∀ p : String, p.length ≤ 7 →
      handleUserRoutes st method p =
        (errResp 400 "invalid_path" "user id is required"
          ErrDetails.noDetails, st, [])) := by
  constructor
  · unfold handleUserRoutes
    rw [if_neg (by omega)]
    simp only [routeUserParts, hparse]
  · intro p hp
    unfold handleUserRoutes
    rw [if_pos hp]

theorem nonpositive_id_segment_rejected_witness :
    handleUserRoutes newUserStore "GET" "/users/abc" =
      (errResp 400 "invalid_path" "user id must be a positive integer"
        ErrDetails.noDetails, newUserStore, []) :=
  (nonpositive_id_segment_rejected newUserStore "GET" "/users/abc"
    (by decide) (by decide)).1

/-- C7: a request to `/users` with a method other than GET/POST, or to
`/users/{id}` (valid id) with a method other than GET/DELETE, is answered
405 `method_not_allowed` carrying the endpoint's allowed set both in the
`Allow` header and in the error details, with no service call and the
store untouched. -/
theorem method_negotiation_advertises_allowed (st : UserStore)
    (method : String) (size : Nat) (b : JsonBody) (now : Nat)
    (path idSeg : String) (n : Int) :
    (method ∉ (["GET", "POST"] : List String) →
      handleUsers st method size b now =
        (⟨405, some "GET, POST",
          RespBody.err "method_not_allowed" "method not allowed"
            (ErrDetails.methodAllow method ["GET", "POST"])⟩, st, [])) ∧
    (7 < path.length → pathParts path = [idSeg] →
      parsePositiveInt idSeg = some n →
      method ∉ (["GET", "DELETE"] : List String) →
      handleUserRoutes st method path =
        (⟨405, some "GET, DELETE",
          RespBody.err "method_not_allowed" "method not allowed"
            (ErrDetails.methodAllow method ["GET", "DELETE"])⟩, st, [])) := by
  constructor
  · intro hm
    have hr := requireMethods_of_not_mem method ["GET", "POST"] hm
    have hi : String.intercalate ", " ["GET", "POST"] = "GET, POST" := by
      decide
    simp only [handleUsers, hr, hi]
  · intro h7 hp hparse hm
    have hr := requireMethods_of_not_mem method ["GET", "DELETE"] hm
    have hi : String.intercalate ", " ["GET", "DELETE"] = "GET, DELETE" := by
      decide
    unfold handleUserRoutes
    rw [if_neg (by omega), hp]
    simp only [routeUserParts, List.headD_cons, hparse, hr, hi]
    rw [if_pos (show ([idSeg] : List String).length = 1 by simp)]

theorem method_negotiation_advertises_allowed_witness :
    handleUsers newUserStore "PATCH" 0 (JsonBody.values []) 0 =
      (⟨405, some "GET, POST",
        RespBody.err "method_not_allowed" "method not allowed"
          (ErrDetails.methodAllow "PATCH" ["GET", "POST"])⟩,
        newUserStore, []) ∧
    handleUserRoutes newUserStore "PUT" "/users/1" =
      (⟨405, some "GET, DELETE",
        RespBody.err "method_not_allowed" "method not allowed"
          (ErrDetails.methodAllow "PUT" ["GET", "DELETE"])⟩,
        newUserStore, []) := by
  have h1 := (method_negotiation_advertises_allowed newUserStore "PATCH" 0
    (JsonBody.values []) 0 "/users/1" "1" 1).1 (by decide)
  have h2 := (method_negotiation_advertises_allowed newUserStore "PUT" 0
    (JsonBody.values []) 0 "/users/1" "1" 1).2 (by decide) (by decide)
    (by decide) (by decide)
  exact ⟨h1, h2⟩

/-- C9: in `HandleUserRoutes`, the id parse runs before method negotiation
and before any service call (so a bad id segment yields 400 `invalid_path`
for every method, even a disallowed one), and on
`/users/{id}/orders/{orderId}` the emptiness check of the trimmed
`orderId` runs before the user-existence lookup (so it yields 400
`invalid_path` even when the user does not exist, with no service
call). -/
theorem path_checks_precede (st : UserStore)
    (method path idSeg ordSeg : String) (n : Int) :
    (7 < path.length →
      parsePositiveInt ((pathParts path).headD "") = none →
      handleUserRoutes st method path =
        (errResp 400 "invalid_path" "user id must be a positive integer"
          ErrDetails.noDetails, st, [])) ∧
    (7 < path.length → pathParts path = [idSeg, "orders", ordSeg] →
      parsePositiveInt idSeg = some n → goTrimSpace ordSeg = "" →
      storeGet st n = none →
      handleUserRoutes st "GET" path =
        (errResp 400 "invalid_path" "orderId is required"
          ErrDetails.noDetails, st, [])) := by
  constructor
  · intro h7 hparse
    unfold handleUserRoutes
    rw [if_neg (by omega)]
    simp only [routeUserParts, hparse]
  · intro h7 hp hparse htrim hget
    have hr : requireMethods "GET" ["GET"] = none :=
      requireMethods_of_mem "GET" ["GET"] (by decide)
    unfold handleUserRoutes
    rw [if_neg (by omega), hp]
    simp only [routeUserParts, List.headD_cons, hparse]
    rw [if_neg (show ¬([idSeg, "orders", ordSeg].length = 1) by simp)]
    rw [if_neg (show ¬([idSeg, "orders", ordSeg].length = 2 ∧
      List.getD [idSeg, "orders", ordSeg] 1 "" = "profile") by simp)]
    rw [if_pos (show [idSeg, "orders", ordSeg].length = 3 ∧
      List.getD [idSeg, "orders", ordSeg] 1 "" = "orders" by simp)]
    simp only [hr]
    rw [show List.getD [idSeg, "orders", ordSeg] 2 "" = ordSeg from rfl]
    rw [htrim]
    rw [if_pos rfl]

theorem path_checks_precede_witness :
    handleUserRoutes newUserStore "PUT" "/users/0" =
      (errResp 400 "invalid_path" "user id must be a positive integer"
        ErrDetails.noDetails, newUserStore, []) ∧
    handleUserRoutes newUserStore "GET" "/users/5/orders/ " =
      (errResp 400 "invalid_path" "orderId is required"
        ErrDetails.noDetails, newUserStore, []) := by
  have h1 := (path_checks_precede newUserStore "PUT" "/users/0" "0" "" 1).1
    (by decide) (by decide)
  have h2 := (path_checks_precede newUserStore "GET" "/users/5/orders/ "
    "5" " " 5).2 (by decide) (by decide) (by decide) (by decide) (by decide)
  exact ⟨h1, h2⟩

theorem decodeFields_error_of_unknown :
    ∀ (fields : List (String × Json)) (acc : CreateUserRequest),
      (∃ k ∈ fields.map Prod.fst, lowerAscii k ≠ "name") →
      ∃ e, decodeFields acc fields = Except.error e := by
  intro fields
  induction fields with
  | nil =>
    intro acc h
    obtain ⟨k, hk, _⟩ := h
    simp at hk
  | cons kv rest ih =>
    intro acc h
    obtain ⟨k₁, v₁⟩ := kv
    obtain ⟨k, hk, hne⟩ := h
    simp only [List.map_cons, List.mem_cons] at hk
    by_cases hmatch : lowerAscii k₁ = "name"
    · have hk' : ∃ k ∈ rest.map Prod.fst, lowerAscii k ≠ "name" := by
        rcases hk with hk | hk
        · exact absurd (by rw [hk]; exact hmatch) hne
        · exact ⟨k, hk, hne⟩
      cases v₁ with
      | null =>
        simp only [decodeFields]
        rw [if_pos hmatch]
        exact ih acc hk'
      | str s =>
        simp only [decodeFields]
        rw [if_pos hmatch]
        exact ih ⟨s⟩ hk'
      | boolVal b =>
        refine ⟨"json: cannot unmarshal value into field name", ?_⟩
        simp only [decodeFields]
        rw [if_pos hmatch]
      | num n =>
        refine ⟨"json: cannot unmarshal value into field name", ?_⟩
        simp only [decodeFields]
        rw [if_pos hmatch]
      | arr l =>
        refine ⟨"json: cannot unmarshal value into field name", ?_⟩
        simp only [decodeFields]
        rw [if_pos hmatch]
      | obj fs =>
        refine ⟨"json: cannot unmarshal value into field name", ?_⟩
        simp only [decodeFields]
        rw [if_pos hmatch]
    · refine ⟨"json: unknown field " ++ k₁, ?_⟩
      simp only [decodeFields]
      rw [if_neg hmatch]

/-- C8: `readJSON` fails on an oversized body (beyond the 1 MiB cap), on a
body that is not well-formed JSON, on an object with a field not declared
in `createUserRequest`, and on trailing content after the first JSON
value; and every `readJSON` failure makes `POST /users` answer 400 with
the structured code `invalid_json`, without touching service or store. -/
theorem readJSON_rejects_bad_bodies (st : UserStore) (now size : Nat)
    (b : JsonBody) :
    (∀ e, readJSONCreateUser size b = Except.error e →
      handleUsers st "POST" size b now =
        (errResp 400 "invalid_json" e ErrDetails.noDetails, st, [])) ∧
    (maxBodyBytes < size → ∃ e, readJSONCreateUser size b = Except.error e) ∧
    (∀ fields, b = JsonBody.values [Json.obj fields] →
      (∃ k ∈ fields.map Prod.fst, lowerAscii k ≠ "name") →
      ∃ e, readJSONCreateUser size b = Except.error e) ∧
    (∀ v w rest, b = JsonBody.values (v :: w :: rest) →
      ∃ e, readJSONCreateUser size b = Except.error e) ∧
    (b = JsonBody.malformed → ∃ e, readJSONCreateUser size b = Except.error e) := by
  refine ⟨?_, ?_, ?_, ?_, ?_⟩
  · intro e he
    have hmem : requireMethods "POST" ["GET", "POST"] = none :=
      requireMethods_of_mem "POST" ["GET", "POST"] (by decide)
    simp only [handleUsers, hmem, he]
    rw [if_neg (by decide : ¬("POST" = "GET"))]
  · intro hs
    refine ⟨"http: request body too large", ?_⟩
    unfold readJSONCreateUser
    rw [if_pos hs]
  · intro fields hb hex
    subst hb
    by_cases hs : maxBodyBytes < size
    · refine ⟨"http: request body too large", ?_⟩
      unfold readJSONCreateUser
      rw [if_pos hs]
    · obtain ⟨e, he⟩ := decodeFields_error_of_unknown fields ⟨""⟩ hex
      have hdec : decodeCreateUserRequest (Json.obj fields) =
          Except.error e := he
      refine ⟨e, ?_⟩
      unfold readJSONCreateUser
      rw [if_neg hs]
      simp only [hdec]
  · intro v w rest hb
    subst hb
    by_cases hs : maxBodyBytes < size
    · refine ⟨"http: request body too large", ?_⟩
      unfold readJSONCreateUser
      rw [if_pos hs]
    · cases hd : decodeCreateUserRequest v with
      | error e =>
        refine ⟨e, ?_⟩
        unfold readJSONCreateUser
        rw [if_neg hs]
        simp only [hd]
      | ok req =>
        refine ⟨"unexpected extra JSON content", ?_⟩
        unfold readJSONCreateUser
        rw [if_neg hs]
        simp only [hd]
  · intro hb
    subst hb
    by_cases hs : maxBodyBytes < size
    · refine ⟨"http: request body too large", ?_⟩
      unfold readJSONCreateUser
      rw [if_pos hs]
    · refine ⟨"invalid character in JSON input", ?_⟩
      unfold readJSONCreateUser
      rw [if_neg hs]

theorem readJSON_rejects_bad_bodies_witness :
    ∃ e, readJSONCreateUser 9
        (JsonBody.values [Json.obj [("nmae", Json.str "x")]]) =
      Except.error e ∧
      handleUsers newUserStore "POST" 9
          (JsonBody.values [Json.obj [("nmae", Json.str "x")]]) 0 =
        (errResp 400 "invalid_json" e ErrDetails.noDetails,
          newUserStore, []) := by
  have h := readJSON_rejects_bad_bodies newUserStore 0 9
    (JsonBody.values [Json.obj [("nmae", Json.str "x")]])
  obtain ⟨e, he⟩ := h.2.2.1 [("nmae", Json.str "x")] rfl
    ⟨"nmae", by decide, by decide⟩
  exact ⟨e, he, h.1 e he⟩

/-- C10 counterexample: the segment `9223372036854775808` (2^63) trims to
an optionally signed decimal numeral whose value is strictly positive, yet
`parsePositiveInt` rejects it, because `strconv.Atoi` fails with a range
error outside the signed 64-bit integers — so acceptance is not
characterised by "positive decimal integer after trimming" alone. -/
theorem parsePositiveInt_overflow_counterexample :
    decimalValue (goTrimSpace "9223372036854775808") =
      some (9223372036854775808 : Int) ∧
    (0 : Int) < 9223372036854775808 ∧
    parsePositiveInt "9223372036854775808" = none := by
  refine ⟨by decide, by decide, by decide⟩

/-- C10 (amended): a path segment is accepted and routed as id `n` exactly
when, after trimming surrounding whitespace, it is an optionally
plus/minus-signed decimal numeral (so surrounding whitespace, a leading
plus sign and leading zeros are all accepted) whose value is `n`, with
`0 < n` and `n` within the signed 64-bit range
(`n ≤ 9223372036854775807`). -/
theorem parsePositiveInt_characterisation (s : String) (n : Int) :
    parsePositiveInt s = some n ↔
      (decimalValue (goTrimSpace s) = some n ∧ 0 < n ∧ n ≤ 2 ^ 63 - 1) := by
  cases hd : decimalValue (goTrimSpace s) with
  | none =>
    simp only [parsePositiveInt, goAtoi, hd]
    simp
  | some v =>
    by_cases hrange : -(2 ^ 63) ≤ v ∧ v ≤ 2 ^ 63 - 1
    · simp only [parsePositiveInt, goAtoi, hd, if_pos hrange]
      by_cases hv : v ≤ 0
      · rw [if_pos hv]
        constructor
        · intro h; cases h
        · rintro ⟨h1, h2, h3⟩
          have hvn := Option.some.inj h1
          exfalso
          omega
      · rw [if_neg hv]
        constructor
        · intro h
          have hvn := Option.some.inj h
          subst hvn
          exact ⟨rfl, by omega, hrange.2⟩
        · rintro ⟨h1, h2, h3⟩
          exact h1
    · simp only [parsePositiveInt, goAtoi, hd, if_neg hrange]
      constructor
      · intro h; cases h
      · rintro ⟨h1, h2, h3⟩
        have hvn := Option.some.inj h1
        exfalso
        omega

theorem parsePositiveInt_characterisation_witness :
    parsePositiveInt " +007 " = some 7 :=
  (parsePositiveInt_characterisation " +007 " 7).mpr
    ⟨by decide, by decide, by decide⟩
